import Mathlib

/-!
Shallow embedding of the software-UART / frame layer of the evofw3 firmware
(src/frame.c, src/sw_uart.c).  Machine bytes (uint8_t) are modelled as `Nat`
with explicit `% 256` where the C arithmetic can wrap; 16-bit timer values are
`Nat` with explicit `% 65536`.  All definitions are executable.
-/

namespace Evofw3

/-- Reversal of the low 8 bits of a byte; bit j of the input becomes
bit (7-j) of the output.  Used to state the relation between the MSB-first
decoder in frame.c and the LSB-first decoder in sw_uart.c. -/
def rev8 (n : Nat) : Nat :=
  (n / 1 % 2) * 128 + (n / 2 % 2) * 64 + (n / 4 % 2) * 32 + (n / 8 % 2) * 16 +
  (n / 16 % 2) * 8 + (n / 32 % 2) * 4 + (n / 64 % 2) * 2 + (n / 128 % 2) * 1

/-! ## Bit decoder (`rx_process_edges`)

State of the decoder loop: the local variables `rx_t`, `rx_tBit`, `rx_hi`,
`rx_isHi`, `rx_byte` of `rx_process_edges` (identical locals in frame.c and
sw_uart.c, all `uint8_t` except the bool-like `rx_isHi`). -/

structure RpeSt where
  t : Nat
  tBit : Nat
  hi : Nat
  isHi : Bool
  byte : Nat
  deriving DecidableEq, Repr

/-- One iteration of the inner `while (samples)` loop of `rx_process_edges`
in frame.c (MSB-first accumulation `rx_byte <<= 1; rx_byte |= bit`), for
`samples > 0`: consume `min (tBit - t) samples` ticks (8-bit subtraction),
accumulate high time, and close the bit window when `t` reaches `tBit`.
Returns the remaining sample count and the updated locals. -/
def rpeIterF (samples : Nat) (s : RpeSt) : Nat × RpeSt :=
  let d := (s.tBit + 256 - s.t) % 256
  let step := min d samples
  let hi1 := if s.isHi then (s.hi + step) % 256 else s.hi
  let t1 := (s.t + step) % 256
  if t1 = s.tBit then
    (samples - step,
      { t := t1, tBit := (s.tBit + 13) % 256, hi := 0, isHi := s.isHi,
        byte :=
          if s.tBit = 13 then s.byte
          else if s.tBit < 130 then (s.byte * 2) % 256 + (if hi1 > 7 then 1 else 0)
          else s.byte })
  else (samples - step, { s with t := t1, hi := hi1 })

/-- One iteration of the inner loop of `rx_process_edges` in sw_uart.c
(LSB-first accumulation `rx_byte >>= 1; rx_byte |= bit` with `bit` being
`0x80` or `0`).  Identical control flow to `rpeIterF`. -/
def rpeIterU (samples : Nat) (s : RpeSt) : Nat × RpeSt :=
  let d := (s.tBit + 256 - s.t) % 256
  let step := min d samples
  let hi1 := if s.isHi then (s.hi + step) % 256 else s.hi
  let t1 := (s.t + step) % 256
  if t1 = s.tBit then
    (samples - step,
      { t := t1, tBit := (s.tBit + 13) % 256, hi := 0, isHi := s.isHi,
        byte :=
          if s.tBit = 13 then s.byte
          else if s.tBit < 130 then s.byte / 2 + (if hi1 > 7 then 128 else 0)
          else s.byte })
  else (samples - step, { s with t := t1, hi := hi1 })

/-- The inner `while (samples)` loop of frame.c's `rx_process_edges`.  The
loop consumes at least one sample per iteration whenever `t ≠ tBit`, which
holds at every reachable call site, so any fuel above `samples` lets the
loop run to completion; `rpeLoopF_stable` below proves fuel-independence. -/
def rpeLoopF : Nat → Nat → RpeSt → RpeSt
  | 0, _, s => s
  | _ + 1, 0, s => s
  | fuel + 1, samples + 1, s =>
    rpeLoopF fuel (rpeIterF (samples + 1) s).1 (rpeIterF (samples + 1) s).2

/-- The inner `while (samples)` loop of sw_uart.c's `rx_process_edges`. -/
def rpeLoopU : Nat → Nat → RpeSt → RpeSt
  | 0, _, s => s
  | _ + 1, 0, s => s
  | fuel + 1, samples + 1, s =>
    rpeLoopU fuel (rpeIterU (samples + 1) s).1 (rpeIterU (samples + 1) s).2

/-- One iteration of the outer `while (nEdges--)` loop of frame.c's
`rx_process_edges`: if the bit boundary is still inside the byte window
(`rx_tBit < TEN_BITS`), distribute the samples `interval - rx_t` (8-bit
subtraction) over the bit windows; every edge toggles the level. -/
def rpeEdgeF (s : RpeSt) (interval : Nat) : RpeSt :=
  let s1 :=
    if s.tBit < 130 then
      let samples := (interval + 256 - s.t) % 256
      rpeLoopF (2 * samples + 2) samples s
    else s
  { s1 with isHi := !s1.isHi }

/-- One iteration of the outer loop of sw_uart.c's `rx_process_edges`. -/
def rpeEdgeU (s : RpeSt) (interval : Nat) : RpeSt :=
  let s1 :=
    if s.tBit < 130 then
      let samples := (interval + 256 - s.t) % 256
      rpeLoopU (2 * samples + 2) samples s
    else s
  { s1 with isHi := !s1.isHi }

/-- Initial decoder state: `rx_t = 0`, `rx_tBit = ONE_BIT`, `rx_hi = 0`,
`rx_isHi = 0`, `rx_byte = 0`. -/
def rpeInit : RpeSt := { t := 0, tBit := 13, hi := 0, isHi := false, byte := 0 }

/-- Fold of `rpeEdgeF` over the committed edge buffer. -/
def rpeGoF : RpeSt → List Nat → RpeSt
  | s, [] => s
  | s, i :: es => rpeGoF (rpeEdgeF s i) es

/-- Fold of `rpeEdgeU` over the committed edge buffer. -/
def rpeGoU : RpeSt → List Nat → RpeSt
  | s, [] => s
  | s, i :: es => rpeGoU (rpeEdgeU s i) es

/-- frame.c `rx_process_edges`: decode one committed edge buffer into a byte
(MSB-first). -/
def rxProcessEdges (edges : List Nat) : Nat := (rpeGoF rpeInit edges).byte

/-- sw_uart.c `rx_process_edges`: decode one committed edge buffer into a byte
(LSB-first). -/
def rxProcessEdgesU (edges : List Nat) : Nat := (rpeGoU rpeInit edges).byte

/-- `rpeEdgeF` with `extra` additional fuel for the inner loop; used to state
that the loop always reaches its fixpoint within the allotted fuel. -/
def rpeEdgeFGen (extra : Nat) (s : RpeSt) (interval : Nat) : RpeSt :=
  let s1 :=
    if s.tBit < 130 then
      let samples := (interval + 256 - s.t) % 256
      rpeLoopF (2 * samples + 2 + extra) samples s
    else s
  { s1 with isHi := !s1.isHi }

/-- `rpeEdgeU` with `extra` additional fuel for the inner loop. -/
def rpeEdgeUGen (extra : Nat) (s : RpeSt) (interval : Nat) : RpeSt :=
  let s1 :=
    if s.tBit < 130 then
      let samples := (interval + 256 - s.t) % 256
      rpeLoopU (2 * samples + 2 + extra) samples s
    else s
  { s1 with isHi := !s1.isHi }

/-- Fold of `rpeEdgeFGen extra` over the edge buffer. -/
def rpeGoFGen (extra : Nat) : RpeSt → List Nat → RpeSt
  | s, [] => s
  | s, i :: es => rpeGoFGen extra (rpeEdgeFGen extra s i) es

/-- Fold of `rpeEdgeUGen extra` over the edge buffer. -/
def rpeGoUGen (extra : Nat) : RpeSt → List Nat → RpeSt
  | s, [] => s
  | s, i :: es => rpeGoUGen extra (rpeEdgeUGen extra s i) es

/-! ## TX frame state machine (frame.c)

`tx_idle` … `tx_done`, `tx_set_byte`, `tx_frame`.  The outbound message is
modelled as the list of bytes that successive `msg_tx_byte` calls will
return before returning 0; a `none` message is the NULL pointer. -/

inductive TxSt
  | OFF | IDLE | PREAMBLE | SYNC | MSG | TRAIN | DONE
  deriving DecidableEq, Repr

structure TxState where
  st : TxSt
  count : Nat
  byte : Nat
  bit : Nat
  msg : Option (List Nat)
  running : Bool
  deriving DecidableEq, Repr

/-- Truth value of `byte & 0x80`. -/
def msbOf (b : Nat) : Bool := (b / 128) % 2 == 1

/-- `byte <<= 1` on a uint8_t. -/
def shl8 (b : Nat) : Nat := (b * 2) % 256

/-- frame.c `tx_set_byte`. -/
def txSetByte (s : TxState) (b : Nat) : TxState :=
  { s with byte := b, bit := 10, count := s.count + 1 }

/-- frame.c `tx_done`. -/
def txDoneF (s : TxState) : TxState := { s with st := .DONE }

/-- frame.c `tx_train`.  `tx_frame_end` calls `tx_stop`, which disables the
TX bit timer (`running := false`). -/
def txTrainF (s : TxState) : TxState :=
  if s.count < 2 then { txSetByte s 0xAA with st := .TRAIN }
  else txDoneF { s with count := 0, running := false }

/-- frame.c `tx_msg`: pull the next byte from the message layer; a zero byte
ends the message phase. -/
def txMsgF (s : TxState) : TxState :=
  match s.msg with
  | none => txTrainF { s with count := 0 }
  | some [] => txTrainF { s with msg := some [], count := 0 }
  | some (b :: rest) =>
    if b % 256 ≠ 0 then { txSetByte { s with msg := some rest } (b % 256) with st := .MSG }
    else txTrainF { s with msg := some rest, count := 0 }

/-- frame.c `tx_sync`: emit `SYNC0 = 0xFF` then `SYNC1 = 0x00`. -/
def txSyncF (s : TxState) : TxState :=
  if s.count < 2 then { txSetByte s (if s.count = 0 then 0xFF else 0x00) with st := .SYNC }
  else txMsgF { s with count := 0 }

/-- frame.c `tx_preamble`: emit `TRAIN = 0xAA` four times. -/
def txPreambleF (s : TxState) : TxState :=
  if s.count < 4 then { txSetByte s 0xAA with st := .PREAMBLE }
  else txSyncF { s with count := 0 }

/-- frame.c `tx_idle` (`tx_frame_start` is a debug no-op). -/
def txIdleF (s : TxState) : TxState :=
  let s0 := { s with count := 0 }
  match s0.msg with
  | none => txDoneF s0
  | some _ => txPreambleF s0

/-- The `switch (tx.state)` dispatch at the end of `tx_frame`. -/
def txPhase (s : TxState) : TxState :=
  match s.st with
  | .IDLE => txIdleF s
  | .PREAMBLE => txPreambleF s
  | .SYNC => txSyncF s
  | .MSG => txMsgF s
  | .TRAIN => txTrainF s
  | .DONE => txDoneF s
  | .OFF => s

/-- frame.c `tx_frame`: one TX timer tick.  Result is the line level driven
(`none` when the state machine is off) and the updated state.  `tx.bit` is a
uint8_t counter, decremented modulo 256. -/
def txTick (s : TxState) : Option Bool × TxState :=
  if s.st = .OFF then (none, s)
  else
    let p : Bool × TxState :=
      if s.bit = 10 then (false, s)
      else if s.bit = 1 then (true, s)
      else (msbOf s.byte, { s with byte := shl8 s.byte })
    let s2 : TxState := { p.2 with bit := (p.2.bit + 255) % 256 }
    let s3 : TxState := if s2.bit = 0 then txPhase s2 else s2
    (some p.1, s3)

/-- Run the TX timer for at most `fuel` ticks, collecting the line levels
driven (one level per bit period); stops when the timer is disabled. -/
def txRun : Nat → TxState → List Bool
  | 0, _ => []
  | fuel + 1, s =>
    if s.running then
      match txTick s with
      | (some l, s1) => l :: txRun fuel s1
      | (none, s1) => txRun fuel s1
    else []

/-- frame.c `frame_tx_enable`: state IDLE, `tx.bit = 1`, timer started. -/
def txEnable (body : List Nat) : TxState :=
  { st := .IDLE, count := 0, byte := 0, bit := 1, msg := some body, running := true }

/-- The line-level trace (one entry per bit period) produced by transmitting
a message whose body bytes are `body`.  The fuel covers the initial idle tick
plus ten ticks per frame byte, after which the timer has stopped. -/
def txLevels (body : List Nat) : List Bool :=
  txRun (10 * (9 + body.length) + 2) (txEnable body)

/-- The bits of a byte, most significant first. -/
def byteBitsMSB (b : Nat) : List Bool :=
  [b.testBit 7, b.testBit 6, b.testBit 5, b.testBit 4,
   b.testBit 3, b.testBit 2, b.testBit 1, b.testBit 0]

/-- UART framing of one byte: start bit (space), 8 data bits MSB-first,
stop bit (mark). -/
def encLevels (b : Nat) : List Bool := false :: byteBitsMSB b ++ [true]

/-- The on-air byte sequence of a TX frame: preamble, sync word, body,
training. -/
def txFrameBytes (body : List Nat) : List Nat :=
  [0xAA, 0xAA, 0xAA, 0xAA, 0xFF, 0x00] ++ body ++ [0xAA, 0xAA]

/-! ## Edge extraction

Turning a per-bit-period level trace into the list of edges the receiver's
GDO2 interrupt sees: `(gap, newLevel)` where `gap` counts bit periods since
the previous edge (13 sample ticks each). -/

def edgesFrom : Bool → Nat → List Bool → List (Nat × Bool)
  | _, _, [] => []
  | prev, gap, l :: ls =>
    if l = prev then edgesFrom prev (gap + 1) ls else (gap, l) :: edgesFrom l 1 ls

/-- The residual run state (current level, bit periods since the last edge)
after scanning a level list; used to compose `edgesFrom` over appends. -/
def edgeState : Bool → Nat → List Bool → Bool × Nat
  | prev, gap, [] => (prev, gap)
  | prev, gap, l :: ls =>
    if l = prev then edgeState prev (gap + 1) ls else edgeState l 1 ls

/-- Convert bit-period gaps to sample-tick gaps (13 ticks per bit). -/
def scaled (es : List (Nat × Bool)) : List (Nat × Bool) :=
  es.map (fun e => (13 * e.1, e.2))

/-! ## RX frame state machine (frame.c) -/

/-- Upstream events: `msg_rx_byte(MSG_START)`, `msg_rx_byte(b)`,
`msg_rx_rssi(...)`, `msg_rx_byte(MSG_END)`. -/
inductive Ev
  | msgStart | byte (b : Nat) | rssi | msgEnd
  deriving DecidableEq, Repr

inductive RxSt
  | OFF | IDLE | HIGH | LOW | SYNC1 | STOP | FRAME0 | FRAME | DONE
  deriving DecidableEq, Repr

structure RxS where
  st : RxSt
  preamble : Nat
  nByte : Nat
  lastByte : Nat
  cur : List Nat
  elapsed : Nat
  lastLevel : Bool
  level : Bool
  out : List Ev
  deriving DecidableEq, Repr

/-- frame.c `rx_preamble`: count consecutive bit-sized intervals, saturating
at 64; any other interval resets the count. -/
def rxPreambleF (s : RxS) (i : Nat) : RxS :=
  if 9 ≤ i ∧ i ≤ 17 then
    if s.preamble < 64 then { s with preamble := s.preamble + 1 } else s
  else { s with preamble := 0 }

/-- frame.c `rx_idle`. -/
def rxIdleF (s : RxS) : RxS :=
  if s.level then { s with st := .HIGH } else { s with st := .IDLE }

/-- frame.c `rx_high`. -/
def rxHighF (s : RxS) (i : Nat) : RxS :=
  if s.level = false then
    { rxPreambleF s i with st := if 110 ≤ i then .SYNC1 else .LOW }
  else { s with st := .HIGH }

/-- frame.c `rx_low`. -/
def rxLowF (s : RxS) (i : Nat) : RxS :=
  if s.level then { rxPreambleF s i with st := .HIGH } else { s with st := .LOW }

/-- frame.c `rx_sync1`. -/
def rxSync1F (s : RxS) (i : Nat) : RxS :=
  if s.level then
    { rxPreambleF s i with st := if 110 ≤ i ∧ i ≤ 137 then .STOP else .HIGH }
  else { s with st := .SYNC1 }

/-- frame.c `rx_stop_bit`: the falling edge ending the stop bit gives byte
synchronisation; `rx_frame_start` emits MSG_START upstream. -/
def rxStopBitF (s : RxS) : RxS :=
  if s.level = false then { s with st := .FRAME0, out := s.out ++ [Ev.msgStart] }
  else { s with st := .STOP }

/-- frame.c `rx_byte` together with the deferred `SW_INT_VECT` decode,
modelled as completing before the next edge: commit the buffer, decode it
and deliver the decoded byte upstream. -/
def rxByteF (s : RxS) : RxS :=
  let d := rxProcessEdges s.cur
  { s with nByte := s.nByte + 1, cur := [], lastByte := d, out := s.out ++ [Ev.byte d] }

/-- frame.c `rx_frame`: append the interval to the current edge buffer (the
C code does this without any bounds check), then classify the interval. -/
def rxFrameF (s : RxS) (i : Nat) : RxS :=
  let s0 := { s with cur := s.cur ++ [i] }
  if 123 < i then
    if i < 189 then
      if s0.level = false then { rxByteF s0 with st := .FRAME0 }
      else { s0 with st := .DONE }
    else { s0 with st := .DONE }
  else if s0.lastByte = 0xAC then { s0 with st := .DONE }
  else { s0 with st := .FRAME }

/-- frame.c `rx_edge`: dispatch on the state, and return synch, which is
false exactly when the new state is RX_FRAME. -/
def rxEdgeF (s : RxS) (i : Nat) : RxS × Bool :=
  let s1 :=
    match s.st with
    | .IDLE => rxIdleF s
    | .LOW => rxLowF s i
    | .HIGH => rxHighF s i
    | .SYNC1 => rxSync1F s i
    | .STOP => rxStopBitF s
    | .FRAME0 => rxFrameF s i
    | .FRAME => rxFrameF s i
    | _ => s
  (s1, !(s1.st = .FRAME))

/-- frame.c `GDO2_INT_VECT` interval computation: 16-bit timer difference,
shifted down to 500 kHz units, then truncated by assignment to `uint8_t`. -/
def frameGdo2Interval (time time0 shift : Nat) : Nat :=
  (((time + 65536 - time0) % 65536) >>> shift) % 256

/-- frame.c `GDO2_INT_VECT` for one edge event `(gap, level)`, `gap` in
post-shift sample ticks.  `elapsed` tracks `time - time0`; the handler runs
only when the level changed, and `time0` is re-anchored (`elapsed := 0`)
when `rx_edge` returns synch. -/
def rxScanStep (s : RxS) (e : Nat × Bool) : RxS :=
  let s1 := { s with level := e.2, elapsed := s.elapsed + e.1 }
  if s1.level = s1.lastLevel then s1
  else
    let i := s1.elapsed % 256
    let r := rxEdgeF s1 i
    { r.1 with elapsed := if r.2 then 0 else r.1.elapsed, lastLevel := s1.level }

def rxScan (s : RxS) (es : List (Nat × Bool)) : RxS := es.foldl rxScanStep s

/-- frame.c `frame_rx_enable` state: `rx_reset` zeroes everything and the
state is set to RX_IDLE. -/
def rxEnable : RxS :=
  { st := .IDLE, preamble := 0, nByte := 0, lastByte := 0, cur := [], elapsed := 0,
    lastLevel := false, level := false, out := [] }

/-- frame.c `frame_work` end-of-frame handling: when the RX state machine
has reached DONE, `rx_frame_done` reads the RSSI (`msg_rx_rssi`) and then
emits MSG_END upstream. -/
def frameFinalize (s : RxS) : List Ev :=
  if s.st = .DONE then s.out ++ [Ev.rssi, Ev.msgEnd] else s.out

/-- Feed a raw edge trace through the RX pipeline and finalize. -/
def framePipelineRaw (es : List (Nat × Bool)) : List Ev :=
  frameFinalize (rxScan rxEnable es)

/-- The full round trip: serialize `body` with the TX state machine at 13
sample ticks per bit with no jitter, extract the edge trace, and feed it to
the RX pipeline. -/
def framePipeline (body : List Nat) : List Ev :=
  framePipelineRaw (scaled (edgesFrom true 0 (txLevels body)))

/-! ## Level-trace regrouping used by the round-trip proof -/

/-- Levels of the initial mark tick, the four preamble bytes, the sync word
and the start bit of the first body byte. -/
def preLevels : List Bool :=
  [true] ++ encLevels 0xAA ++ encLevels 0xAA ++ encLevels 0xAA ++ encLevels 0xAA ++
  encLevels 0xFF ++ encLevels 0x00 ++ [false]

/-- Levels contributed by one body byte: its data bits, its stop bit, and
the start bit of the following byte. -/
def chunkLevels (b : Nat) : List Bool := byteBitsMSB b ++ [true, false]

/-- Levels of the two training bytes after the last body byte's start bit
has been consumed by its chunk. -/
def tailLevels : List Bool :=
  byteBitsMSB 0xAA ++ [true, false] ++ byteBitsMSB 0xAA ++ [true]

/-- The interval values (cumulative bit offsets times 13, truncated to a
byte) that the capture ISR records for an in-byte edge list. -/
def cumsFrom (c : Nat) : List (Nat × Bool) → List Nat
  | [] => []
  | e :: es => (13 * (c + e.1)) % 256 :: cumsFrom (c + e.1) es

/-- Structural well-formedness of the edge list of one byte chunk: strictly
alternating levels, all edges within the first nine bit periods except the
last, which is the falling edge at the ten-bit boundary. -/
def byteEdgesOK (c : Nat) (prev : Bool) : List (Nat × Bool) → Bool
  | [] => false
  | [e] => e.2 = false && prev = true && c + e.1 = 10
  | e1 :: e2 :: rest =>
    (e1.2 = !prev) && 1 ≤ e1.1 && c + e1.1 ≤ 9 && byteEdgesOK (c + e1.1) e1.2 (e2 :: rest)

/-- The canonical receiver state at a byte boundary inside a frame. -/
def mkFrameState (lastB p nB : Nat) (out : List Ev) : RxS :=
  { st := .FRAME0, preamble := p, nByte := nB, lastByte := lastB, cur := [], elapsed := 0,
    lastLevel := false, level := false, out := out }

/-! ## RX state machine, sw_uart.c variant -/

inductive USt
  | OFF | IDLE | HIGH | LOW | SYNC1 | STOP | SYNCH | SYNCH0
  deriving DecidableEq, Repr

structure UState where
  time : Nat
  time0 : Nat
  overflow : Nat
  st : USt
  nByte : Nat
  lastByte : Nat
  cur : List Nat
  lastLevel : Bool
  level : Bool
  out : List Nat
  deriving DecidableEq, Repr

/-- sw_uart.c `rx_edge_detected` interval computation: the 16-bit timer
difference shifted down, saturated to 255; a double timer overflow, or a
single one with `time > time0`, forces 255. -/
def uartInterval (time time0 overflow shift : Nat) : Nat :=
  if overflow ≠ 0 ∧ (1 < overflow ∨ time0 < time) then 255
  else min (((time + 65536 - time0) % 65536) >>> shift) 255

/-- Modelled from the spec (the constant FRM_LOST_SYNC lives in frame.h,
which is not part of the sources here): the spec only says it is an error
code delivered as a pseudo-byte, so the sw_uart definitions below take the
code as a parameter. -/
def specSaturatedInterval (time time0 overflow shift : Nat) : Nat :=
  if 2 ≤ overflow ∨ (overflow = 1 ∧ time0 < time) then 255
  else min 255 (((time + 65536 - time0) % 65536) >>> shift)

/-- sw_uart.c `rx_idle`. -/
def uartIdleF (s : UState) : UState :=
  if s.level then { s with st := .HIGH } else { s with st := .IDLE }

/-- sw_uart.c `rx_high`. -/
def uartHighF (s : UState) (i : Nat) : UState :=
  if s.level = false then { s with st := if 110 ≤ i then .SYNC1 else .LOW }
  else { s with st := .HIGH }

/-- sw_uart.c `rx_low`. -/
def uartLowF (s : UState) : UState :=
  if s.level then { s with st := .HIGH } else { s with st := .LOW }

/-- sw_uart.c `rx_sync1`. -/
def uartSync1F (s : UState) (i : Nat) : UState :=
  if s.level then { s with st := if 110 ≤ i ∧ i ≤ 137 then .STOP else .HIGH }
  else { s with st := .SYNC1 }

/-- sw_uart.c `rx_stop_bit`. -/
def uartStopBitF (s : UState) : UState :=
  if s.level = false then { s with st := .SYNCH0 } else { s with st := .STOP }

/-- sw_uart.c `rx_byte` together with the deferred `SW_INT_VECT` decode:
commit the buffer; the decode interrupt then sets `lastByte` to the decoded
byte and delivers it upstream via `frame_rx_byte`. -/
def uartByteF (s : UState) : UState :=
  let d := rxProcessEdgesU s.cur
  { s with nByte := s.nByte + 1, cur := [], lastByte := d, out := s.out ++ [d] }

/-- sw_uart.c `rx_abort code`: store the error code in `lastByte`, commit
the buffer (raising the decode interrupt), return to sync-word search.  Note
the decode triggered by the commit overwrites `lastByte`. -/
def uartAbort (code : Nat) (s : UState) : UState :=
  let s1 := uartByteF { s with lastByte := code }
  { s1 with st := if s1.level then .HIGH else .SYNC1 }

/-- sw_uart.c `rx_synch`: gather in-byte edges with a MAX_EDGE bound;
`code` is the FRM_LOST_SYNC value passed to `rx_abort`. -/
def uartSynchF (code : Nat) (s : UState) (i : Nat) : UState :=
  if s.cur.length < 24 then
    let s0 := { s with cur := s.cur ++ [i] }
    if 123 < i then
      if i < 240 then
        if s0.level = false then { uartByteF s0 with st := .SYNCH0 }
        else uartAbort code s0
      else uartAbort code s0
    else if s0.lastByte = 0x35 then { s0 with st := .IDLE }
    else { s0 with st := .SYNCH }
  else uartAbort code s

/-- sw_uart.c `rx_edge`: dispatch, returning synch = (new state ≠ SYNCH). -/
def uartRxEdge (code : Nat) (s : UState) (i : Nat) : UState × Bool :=
  let s1 :=
    match s.st with
    | .IDLE => uartIdleF s
    | .LOW => uartLowF s
    | .HIGH => uartHighF s i
    | .SYNC1 => uartSync1F s i
    | .STOP => uartStopBitF s
    | .SYNCH0 => uartSynchF code s i
    | .SYNCH => uartSynchF code s i
    | .OFF => s
  (s1, !(s1.st = .SYNCH))

/-- sw_uart.c `GDO2_INT_VECT` + `rx_edge_detected` for one edge event
`(gap, level)` with `gap` in pre-shift timer ticks: the timestamp always
advances; processing happens only when the level changed. -/
def uartScanStep (code shift : Nat) (s : UState) (e : Nat × Bool) : UState :=
  let s1 := { s with time := (s.time + e.1) % 65536, level := e.2 }
  if s1.level = s1.lastLevel then s1
  else
    let i := uartInterval s1.time s1.time0 s1.overflow shift
    let r := uartRxEdge code { s1 with overflow := 0 } i
    { r.1 with time0 := if r.2 then s1.time else r.1.time0, lastLevel := s1.level }

def uartScan (code shift : Nat) (s : UState) (es : List (Nat × Bool)) : UState :=
  es.foldl (uartScanStep code shift) s

/-- sw_uart.c `uart_rx_enable` state. -/
def uartEnable : UState :=
  { time := 0, time0 := 0, overflow := 0, st := .IDLE, nByte := 0, lastByte := 0,
    cur := [], lastLevel := false, level := false, out := [] }

/-- A concrete edge trace (gaps in sample ticks): preamble-less sync
acquisition followed by 25 in-byte edges spaced 4 ticks apart, all within
the ten-bit window, so frame.c's `rx_frame` appends 25 intervals to a
24-entry buffer. -/
def overflowTrace : List (Nat × Bool) :=
  [(13, true), (117, false), (117, true), (13, false)] ++
  (List.range 25).map (fun k => (4, k % 2 == 0))

/-- A concrete edge trace (gaps in pre-shift timer ticks, clock shift 1):
sync acquisition, byte synch, two in-byte edges, then a rising edge after
twelve bit periods, which makes `rx_synch` lose byte synchronisation and
call `rx_abort FRM_LOST_SYNC`. -/
def lostSyncTrace : List (Nat × Bool) :=
  [(26, true), (234, false), (234, true), (26, false), (26, true), (26, false), (260, true)]

/-- The sw_uart analogue of `overflowTrace` (gaps in pre-shift ticks,
clock shift 1): 25 in-byte edges 4 sample ticks apart; `rx_synch` appends
only 24 of them and aborts on the 25th instead of overrunning the buffer. -/
def overflowTraceU : List (Nat × Bool) :=
  [(26, true), (234, false), (234, true), (26, false)] ++
  (List.range 25).map (fun k => (8, k % 2 == 0))

/-! # Theorems -/

/-! ## Byte reversal facts (decided) -/

set_option maxRecDepth 4000 in
theorem rev8_lt256 : ∀ b, b < 256 → rev8 b < 256 := by decide

set_option maxRecDepth 4000 in
theorem rev8_mul2 : ∀ b, b < 256 → rev8 ((b * 2) % 256) = rev8 b / 2 := by decide

set_option maxRecDepth 4000 in
theorem rev8_mul2_add1 : ∀ b, b < 256 → rev8 ((b * 2) % 256 + 1) = rev8 b / 2 + 128 := by
  decide

/-! ## Inner decoder loop: invariants, fuel stability, variant mirror -/

theorem rpeIterF_inv (samples : Nat) (s : RpeSt)
    (h1 : s.t < 256) (h2 : s.tBit < 256) (h3 : s.t ≠ s.tBit) :
    (rpeIterF samples s).2.t < 256 ∧ (rpeIterF samples s).2.tBit < 256 ∧
    (rpeIterF samples s).2.t ≠ (rpeIterF samples s).2.tBit ∧
    (0 < samples → (rpeIterF samples s).1 < samples) := by
  simp only [rpeIterF]
  split_ifs <;>
    exact ⟨by simp; omega, by simp; omega, by simp; omega, fun hs => by simp; omega⟩

theorem rpeIterF_byte_lt (samples : Nat) (s : RpeSt) (h : s.byte < 256) :
    (rpeIterF samples s).2.byte < 256 := by
  simp only [rpeIterF]
  split_ifs <;> simp <;> omega

theorem rpeIterU_mirror (samples : Nat) (s : RpeSt) (h : s.byte < 256) :
    rpeIterU samples { s with byte := rev8 s.byte } =
      ((rpeIterF samples s).1, { (rpeIterF samples s).2 with byte := rev8 (rpeIterF samples s).2.byte }) := by
  simp only [rpeIterF, rpeIterU]
  split_ifs <;>
    simp_all [rev8_mul2 s.byte h, rev8_mul2_add1 s.byte h]

theorem rpeLoopF_stable (f1 : Nat) : ∀ (f2 samples : Nat) (s : RpeSt),
    s.t < 256 → s.tBit < 256 → s.t ≠ s.tBit → samples < f1 → samples < f2 →
    rpeLoopF f1 samples s = rpeLoopF f2 samples s := by
  induction f1 with
  | zero => intro f2 samples s _ _ _ hlt _; omega
  | succ g ih =>
    intro f2 samples s h1 h2 h3 hlt1 hlt2
    obtain ⟨h', rfl⟩ : ∃ h', f2 = h' + 1 := ⟨f2 - 1, by omega⟩
    match samples with
    | 0 => rfl
    | k + 1 =>
      show rpeLoopF g (rpeIterF (k + 1) s).1 (rpeIterF (k + 1) s).2 =
        rpeLoopF h' (rpeIterF (k + 1) s).1 (rpeIterF (k + 1) s).2
      obtain ⟨i1, i2, i3, i4⟩ := rpeIterF_inv (k + 1) s h1 h2 h3
      have hk := i4 (by omega)
      exact ih h' _ _ i1 i2 i3 (by omega) (by omega)

theorem rpeLoopF_inv (fuel : Nat) : ∀ (samples : Nat) (s : RpeSt),
    s.t < 256 → s.tBit < 256 → s.t ≠ s.tBit →
    (rpeLoopF fuel samples s).t < 256 ∧ (rpeLoopF fuel samples s).tBit < 256 ∧
    (rpeLoopF fuel samples s).t ≠ (rpeLoopF fuel samples s).tBit := by
  induction fuel with
  | zero => intro samples s h1 h2 h3; exact ⟨h1, h2, h3⟩
  | succ g ih =>
    intro samples s h1 h2 h3
    match samples with
    | 0 => exact ⟨h1, h2, h3⟩
    | k + 1 =>
      obtain ⟨i1, i2, i3, _⟩ := rpeIterF_inv (k + 1) s h1 h2 h3
      exact ih _ _ i1 i2 i3

theorem rpeLoopF_byte_lt (fuel : Nat) : ∀ (samples : Nat) (s : RpeSt),
    s.byte < 256 → (rpeLoopF fuel samples s).byte < 256 := by
  induction fuel with
  | zero => intro samples s h; exact h
  | succ g ih =>
    intro samples s h
    match samples with
    | 0 => exact h
    | k + 1 => exact ih _ _ (rpeIterF_byte_lt (k + 1) s h)

theorem rpeLoopU_mirror (fuel : Nat) : ∀ (samples : Nat) (s : RpeSt),
    s.byte < 256 →
    rpeLoopU fuel samples { s with byte := rev8 s.byte } =
      { rpeLoopF fuel samples s with byte := rev8 (rpeLoopF fuel samples s).byte } := by
  induction fuel with
  | zero => intro samples s _; rfl
  | succ g ih =>
    intro samples s h
    match samples with
    | 0 => rfl
    | k + 1 =>
      show rpeLoopU g (rpeIterU (k + 1) { s with byte := rev8 s.byte }).1
          (rpeIterU (k + 1) { s with byte := rev8 s.byte }).2 = _
      rw [rpeIterU_mirror (k + 1) s h]
      exact ih _ _ (rpeIterF_byte_lt (k + 1) s h)

/-! ## Per-edge and whole-buffer decoder lemmas -/

theorem rpeEdgeFGen_eq (extra : Nat) (s : RpeSt) (i : Nat)
    (h1 : s.t < 256) (h2 : s.tBit < 256) (h3 : s.t ≠ s.tBit) :
    rpeEdgeFGen extra s i = rpeEdgeF s i := by
  simp only [rpeEdgeF, rpeEdgeFGen]
  split_ifs with h
  · rw [rpeLoopF_stable (2 * ((i + 256 - s.t) % 256) + 2 + extra)
      (2 * ((i + 256 - s.t) % 256) + 2) _ s h1 h2 h3 (by omega) (by omega)]
  · rfl

theorem rpeEdgeF_inv (s : RpeSt) (i : Nat)
    (h1 : s.t < 256) (h2 : s.tBit < 256) (h3 : s.t ≠ s.tBit) :
    (rpeEdgeF s i).t < 256 ∧ (rpeEdgeF s i).tBit < 256 ∧
    (rpeEdgeF s i).t ≠ (rpeEdgeF s i).tBit := by
  simp only [rpeEdgeF]
  split_ifs with h
  · have := rpeLoopF_inv (2 * ((i + 256 - s.t) % 256) + 2) ((i + 256 - s.t) % 256) s h1 h2 h3
    simpa using this
  · exact ⟨h1, h2, h3⟩

theorem rpeEdgeF_byte_lt (s : RpeSt) (i : Nat) (h : s.byte < 256) :
    (rpeEdgeF s i).byte < 256 := by
  simp only [rpeEdgeF]
  split_ifs with hb
  · simpa using rpeLoopF_byte_lt (2 * ((i + 256 - s.t) % 256) + 2) ((i + 256 - s.t) % 256) s h
  · exact h

theorem rpeEdgeU_mirror (s : RpeSt) (i : Nat) (h : s.byte < 256) :
    rpeEdgeU { s with byte := rev8 s.byte } i =
      { rpeEdgeF s i with byte := rev8 (rpeEdgeF s i).byte } := by
  simp only [rpeEdgeF, rpeEdgeU]
  split_ifs with hb
  · rw [rpeLoopU_mirror _ _ s h]
  · rfl

theorem rpeEdgeUGen_mirror (extra : Nat) (s : RpeSt) (i : Nat) (h : s.byte < 256) :
    rpeEdgeUGen extra { s with byte := rev8 s.byte } i =
      { rpeEdgeFGen extra s i with byte := rev8 (rpeEdgeFGen extra s i).byte } := by
  simp only [rpeEdgeFGen, rpeEdgeUGen]
  split_ifs with hb
  · rw [rpeLoopU_mirror _ _ s h]
  · rfl

theorem rpeGoF_inv (es : List Nat) : ∀ (s : RpeSt),
    s.t < 256 → s.tBit < 256 → s.t ≠ s.tBit →
    (rpeGoF s es).t < 256 ∧ (rpeGoF s es).tBit < 256 ∧
    (rpeGoF s es).t ≠ (rpeGoF s es).tBit := by
  induction es with
  | nil => intro s h1 h2 h3; exact ⟨h1, h2, h3⟩
  | cons i es ih =>
    intro s h1 h2 h3
    obtain ⟨j1, j2, j3⟩ := rpeEdgeF_inv s i h1 h2 h3
    exact ih _ j1 j2 j3

theorem rpeGoF_byte_lt (es : List Nat) : ∀ (s : RpeSt),
    s.byte < 256 → (rpeGoF s es).byte < 256 := by
  induction es with
  | nil => intro s h; exact h
  | cons i es ih => intro s h; exact ih _ (rpeEdgeF_byte_lt s i h)

theorem rpeGoFGen_eq (es : List Nat) : ∀ (extra : Nat) (s : RpeSt),
    s.t < 256 → s.tBit < 256 → s.t ≠ s.tBit →
    rpeGoFGen extra s es = rpeGoF s es := by
  induction es with
  | nil => intro extra s _ _ _; rfl
  | cons i es ih =>
    intro extra s h1 h2 h3
    show rpeGoFGen extra (rpeEdgeFGen extra s i) es = rpeGoF (rpeEdgeF s i) es
    rw [rpeEdgeFGen_eq extra s i h1 h2 h3]
    obtain ⟨j1, j2, j3⟩ := rpeEdgeF_inv s i h1 h2 h3
    exact ih extra _ j1 j2 j3

theorem rpeGoU_mirror (es : List Nat) : ∀ (s : RpeSt),
    s.byte < 256 →
    rpeGoU { s with byte := rev8 s.byte } es =
      { rpeGoF s es with byte := rev8 (rpeGoF s es).byte } := by
  induction es with
  | nil => intro s _; rfl
  | cons i es ih =>
    intro s h
    show rpeGoU (rpeEdgeU { s with byte := rev8 s.byte } i) es = _
    rw [rpeEdgeU_mirror s i h]
    exact ih _ (rpeEdgeF_byte_lt s i h)

theorem rpeGoUGen_mirror (es : List Nat) : ∀ (extra : Nat) (s : RpeSt),
    s.byte < 256 →
    rpeGoUGen extra { s with byte := rev8 s.byte } es =
      { rpeGoFGen extra s es with byte := rev8 (rpeGoFGen extra s es).byte } := by
  induction es with
  | nil => intro extra s _; rfl
  | cons i es ih =>
    intro extra s h
    show rpeGoUGen extra (rpeEdgeUGen extra { s with byte := rev8 s.byte } i) es = _
    rw [rpeEdgeUGen_mirror extra s i h]
    refine ih extra _ ?_
    simp only [rpeEdgeFGen]
    split_ifs with hb
    · simpa using
        rpeLoopF_byte_lt (2 * ((i + 256 - s.t) % 256) + 2 + extra) ((i + 256 - s.t) % 256) s h
    · exact h

theorem rpeGoF_append (es extra : List Nat) : ∀ (s : RpeSt),
    rpeGoF s (es ++ extra) = rpeGoF (rpeGoF s es) extra := by
  induction es with
  | nil => intro s; rfl
  | cons i es ih => intro s; exact ih _

theorem rpeGoF_highTBit (extra : List Nat) : ∀ (s : RpeSt), 130 ≤ s.tBit →
    (rpeGoF s extra).byte = s.byte ∧ (rpeGoF s extra).tBit = s.tBit := by
  induction extra with
  | nil => intro s _; exact ⟨rfl, rfl⟩
  | cons i es ih =>
    intro s h
    have he : rpeEdgeF s i = { s with isHi := !s.isHi } := by
      simp only [rpeEdgeF]
      rw [if_neg (by omega)]
    show (rpeGoF (rpeEdgeF s i) es).byte = s.byte ∧ (rpeGoF (rpeEdgeF s i) es).tBit = s.tBit
    rw [he]
    exact ih _ (by simpa using h)

theorem rpeInit_rev8_fix : ({ rpeInit with byte := rev8 rpeInit.byte } : RpeSt) = rpeInit := rfl

/-- C6: both `rx_process_edges` variants walk identical 13-tick bit windows
(skipping the start-bit window and deciding each data bit by
`hi_count > HALF_BIT`); frame.c assembles the bits MSB-first and sw_uart.c
LSB-first, so on every input buffer the two decoded bytes are bit reversals
of each other. -/
theorem C6_decoder_variants_bit_reversed (es : List Nat) :
    rxProcessEdgesU es = rev8 (rxProcessEdges es) := by
  show (rpeGoU rpeInit es).byte = rev8 (rpeGoF rpeInit es).byte
  have h := rpeGoU_mirror es rpeInit (by decide)
  rw [rpeInit_rev8_fix] at h
  rw [h]

/-- C9: the bit decoder terminates on every input buffer — the inner loop
reaches its fixpoint inside the allotted fuel, so granting it any extra fuel
changes nothing — and the value returned is a byte, in both variants. -/
theorem C9_decoder_total (es : List Nat) (extra : Nat) :
    rpeGoFGen extra rpeInit es = rpeGoF rpeInit es ∧
    rpeGoUGen extra rpeInit es = rpeGoU rpeInit es ∧
    rxProcessEdges es < 256 ∧ rxProcessEdgesU es < 256 := by
  have hF := rpeGoFGen_eq es extra rpeInit (by decide) (by decide) (by decide)
  have hU := rpeGoU_mirror es rpeInit (by decide)
  rw [rpeInit_rev8_fix] at hU
  have hUgen := rpeGoUGen_mirror es extra rpeInit (by decide)
  rw [rpeInit_rev8_fix] at hUgen
  have hblt : (rpeGoF rpeInit es).byte < 256 := rpeGoF_byte_lt es rpeInit (by decide)
  refine ⟨hF, ?_, hblt, ?_⟩
  · rw [hUgen, hF, hU]
  · show (rpeGoU rpeInit es).byte < 256
    rw [hU]
    exact rev8_lt256 _ hblt

/-- C10 (amended): intervals appended to the buffer after the decoder's bit
boundary `rx_tBit` has reached TEN_BITS never change the decoded byte. -/
theorem C10_amended_late_intervals (es extra : List Nat)
    (h : 130 ≤ (rpeGoF rpeInit es).tBit) :
    rxProcessEdges (es ++ extra) = rxProcessEdges es := by
  show (rpeGoF rpeInit (es ++ extra)).byte = (rpeGoF rpeInit es).byte
  rw [rpeGoF_append]
  exact (rpeGoF_highTBit extra _ h).1

/-- Witness for C10: after the buffer [13, 130] the bit boundary is at 143,
and appending the junk intervals [7, 5] leaves the decoded byte unchanged. -/
theorem C10_amended_witness :
    130 ≤ (rpeGoF rpeInit [13, 130]).tBit ∧
    rxProcessEdges ([13, 130] ++ [7, 5]) = rxProcessEdges [13, 130] :=
  ⟨by decide, C10_amended_late_intervals [13, 130] [7, 5] (by decide)⟩

/-- C10 counterexample: the stop-bit interval that `rx_frame` appends just
before committing DOES affect the decoded value when the bit boundary has
not yet reached TEN_BITS.  For the byte 0xFF the in-byte edges are just
[13]; appending the committing stop interval 130 changes the decode from 0
to 0xFF. -/
theorem C10_stop_interval_cex :
    rxProcessEdges ([13] ++ [130]) ≠ rxProcessEdges [13] := by decide

/-! ## TX run lemmas -/

theorem txRun_stopped (f : Nat) (s : TxState) (h : s.running = false) : txRun f s = [] := by
  cases f with
  | zero => rfl
  | succ f => simp [txRun, h]

theorem txRun_step (f : Nat) (s : TxState) (h : s.running = true) :
    txRun (f + 1) s =
      (match txTick s with
       | (some l, s1) => l :: txRun f s1
       | (none, s1) => txRun f s1) := by
  simp [txRun, h]

theorem txTick_start (s : TxState) (hoff : s.st ≠ .OFF) (h : s.bit = 10) :
    txTick s = (some false, { s with bit := 9 }) := by
  simp [txTick, hoff, h]

theorem txTick_data (s : TxState) (hoff : s.st ≠ .OFF) (h2 : 2 ≤ s.bit) (h9 : s.bit ≤ 9) :
    txTick s = (some (msbOf s.byte), { s with byte := shl8 s.byte, bit := s.bit - 1 }) := by
  have e1 : s.bit ≠ 10 := by omega
  have e2 : s.bit ≠ 1 := by omega
  have e3 : (s.bit + 255) % 256 = s.bit - 1 := by omega
  have e4 : ¬(s.bit - 1 = 0) := by omega
  simp [txTick, hoff, e1, e2, e3, e4]

theorem txTick_stop (s : TxState) (hoff : s.st ≠ .OFF) (h : s.bit = 1) :
    txTick s = (some true, txPhase { s with bit := 0 }) := by
  simp [txTick, hoff, h]


theorem txRun_midbyte (k : Nat) : ∀ (f : Nat) (s : TxState),
    s.running = true → s.st ≠ .OFF → s.bit = k + 2 → k + 2 ≤ 9 →
    txRun (f + (k + 2)) s =
      (List.range (k + 1)).map (fun j => msbOf (shl8^[j] s.byte)) ++
        true :: txRun f (txPhase { s with byte := shl8^[k + 1] s.byte, bit := 0 }) := by
  induction k with
  | zero =>
    intro f s hrun hoff hbit _
    rw [show f + 2 = (f + 1) + 1 from rfl, txRun_step _ _ hrun,
      txTick_data s hoff (by omega) (by omega)]
    simp only []
    rw [txRun_step _ _ (by simpa using hrun), txTick_stop _ (by simpa using hoff) (by simp [hbit])]
    simp [Function.iterate_succ_apply, hbit, show List.range 1 = [0] from rfl]
  | succ k ih =>
    intro f s hrun hoff hbit hle
    rw [show f + (k + 3) = (f + (k + 2)) + 1 from rfl, txRun_step _ _ hrun,
      txTick_data s hoff (by omega) (by omega)]
    simp only []
    rw [ih f { s with byte := shl8 s.byte, bit := s.bit - 1 } (by simpa using hrun)
      (by simpa using hoff) (by simp [hbit]) (by omega)]
    simp [Function.iterate_succ_apply, List.range_succ_eq_map, List.map_map, Function.comp, hbit]


set_option maxRecDepth 8000 in
theorem txByte_window : ∀ b, b < 256 →
    (List.range 8).map (fun j => msbOf (shl8^[j] b)) = byteBitsMSB b ∧ shl8^[8] b = 0 := by
  decide

theorem txRun_emits_byte (f : Nat) (s : TxState)
    (hrun : s.running = true) (hoff : s.st ≠ .OFF) (hbit : s.bit = 10) (hb : s.byte < 256) :
    txRun (f + 10) s = encLevels s.byte ++ txRun f (txPhase { s with byte := 0, bit := 0 }) := by
  rw [show f + 10 = (f + 9) + 1 from rfl, txRun_step _ _ hrun, txTick_start s hoff hbit]
  simp only []
  rw [show f + 9 = f + (7 + 2) from rfl,
    txRun_midbyte 7 f { s with bit := 9 } (by simpa using hrun) (by simpa using hoff)
      (by simp) (by omega)]
  have hw := txByte_window s.byte hb
  simp only []
  rw [show ({ s with bit := 9 } : TxState).byte = s.byte from rfl]
  rw [hw.1, hw.2]
  simp [encLevels]


theorem txRun_msgloop (bs : List Nat) : ∀ (f c y z : Nat) (st0 : TxSt),
    (∀ b ∈ bs, 0 < b ∧ b < 256) →
    txRun (10 * bs.length + 20 + f)
      (txMsgF { st := st0, count := c, byte := y, bit := z, msg := some bs, running := true }) =
      ((bs ++ [0xAA, 0xAA]).map encLevels).flatten := by
  induction bs with
  | nil =>
    intro f c y z st0 _
    rw [show txMsgF { st := st0, count := c, byte := y, bit := z, msg := some ([] : List Nat), running := true }
        = { st := .TRAIN, count := 1, byte := 0xAA, bit := 10, msg := some [], running := true } from rfl]
    rw [show 10 * ([] : List Nat).length + 20 + f = (f + 10) + 10 from by simp; omega]
    rw [txRun_emits_byte (f + 10) _ rfl (by simp) rfl (by norm_num)]
    rw [show txPhase { st := TxSt.TRAIN, count := 1, byte := 0, bit := 0, msg := some ([] : List Nat), running := true }
        = { st := .TRAIN, count := 2, byte := 0xAA, bit := 10, msg := some [], running := true } from rfl]
    rw [txRun_emits_byte f _ rfl (by simp) rfl (by norm_num)]
    rw [show txPhase { st := TxSt.TRAIN, count := 2, byte := 0, bit := 0, msg := some ([] : List Nat), running := true }
        = { st := .DONE, count := 0, byte := 0, bit := 0, msg := some [], running := false } from rfl]
    rw [txRun_stopped f _ rfl]
    simp
  | cons b rest ih =>
    intro f c y z st0 hall
    obtain ⟨hb0, hb256⟩ := hall b (by simp)
    have hmod : b % 256 = b := Nat.mod_eq_of_lt hb256
    have hneq : ¬(b % 256 = 0) := by omega
    have he : txMsgF { st := st0, count := c, byte := y, bit := z, msg := some (b :: rest), running := true }
        = { st := .MSG, count := c + 1, byte := b % 256, bit := 10, msg := some rest, running := true } := by
      simp [txMsgF, hneq, txSetByte]
    rw [he]
    rw [show 10 * (b :: rest).length + 20 + f = (10 * rest.length + 20 + f) + 10 from by
      simp [List.length_cons]; omega]
    rw [txRun_emits_byte _ _ rfl (by simp) rfl (by simp; omega)]
    rw [show txPhase { st := TxSt.MSG, count := c + 1, byte := 0, bit := 0, msg := some rest, running := true }
        = txMsgF { st := TxSt.MSG, count := c + 1, byte := 0, bit := 0, msg := some rest, running := true } from rfl]
    rw [ih f (c + 1) 0 0 .MSG (fun x hx => hall x (by simp [hx]))]
    simp [hmod]


theorem txLevels_spec (body : List Nat) (h : ∀ b ∈ body, 0 < b ∧ b < 256) :
    txLevels body = true :: ((txFrameBytes body).map encLevels).flatten := by
  unfold txLevels txEnable
  rw [show 10 * (9 + body.length) + 2 = ((10 * body.length + 20 + 11) + 60) + 1 from by omega]
  rw [txRun_step _ _ rfl, txTick_stop _ (by simp) rfl]
  simp only []
  rw [show txPhase { st := TxSt.IDLE, count := 0, byte := 0, bit := 0, msg := some body, running := true }
      = { st := TxSt.PREAMBLE, count := 1, byte := 0xAA, bit := 10, msg := some body, running := true } from rfl]
  rw [show (10 * body.length + 20 + 11) + 60 = ((10 * body.length + 20 + 11) + 50) + 10 from by omega]
  rw [txRun_emits_byte _ _ rfl (by simp) rfl (by norm_num)]
  rw [show txPhase { st := TxSt.PREAMBLE, count := 1, byte := 0, bit := 0, msg := some body, running := true }
      = { st := TxSt.PREAMBLE, count := 2, byte := 0xAA, bit := 10, msg := some body, running := true } from rfl]
  rw [show (10 * body.length + 20 + 11) + 50 = ((10 * body.length + 20 + 11) + 40) + 10 from by omega]
  rw [txRun_emits_byte _ _ rfl (by simp) rfl (by norm_num)]
  rw [show txPhase { st := TxSt.PREAMBLE, count := 2, byte := 0, bit := 0, msg := some body, running := true }
      = { st := TxSt.PREAMBLE, count := 3, byte := 0xAA, bit := 10, msg := some body, running := true } from rfl]
  rw [show (10 * body.length + 20 + 11) + 40 = ((10 * body.length + 20 + 11) + 30) + 10 from by omega]
  rw [txRun_emits_byte _ _ rfl (by simp) rfl (by norm_num)]
  rw [show txPhase { st := TxSt.PREAMBLE, count := 3, byte := 0, bit := 0, msg := some body, running := true }
      = { st := TxSt.PREAMBLE, count := 4, byte := 0xAA, bit := 10, msg := some body, running := true } from rfl]
  rw [show (10 * body.length + 20 + 11) + 30 = ((10 * body.length + 20 + 11) + 20) + 10 from by omega]
  rw [txRun_emits_byte _ _ rfl (by simp) rfl (by norm_num)]
  rw [show txPhase { st := TxSt.PREAMBLE, count := 4, byte := 0, bit := 0, msg := some body, running := true }
      = { st := TxSt.SYNC, count := 1, byte := 0xFF, bit := 10, msg := some body, running := true } from rfl]
  rw [show (10 * body.length + 20 + 11) + 20 = ((10 * body.length + 20 + 11) + 10) + 10 from by omega]
  rw [txRun_emits_byte _ _ rfl (by simp) rfl (by norm_num)]
  rw [show txPhase { st := TxSt.SYNC, count := 1, byte := 0, bit := 0, msg := some body, running := true }
      = { st := TxSt.SYNC, count := 2, byte := 0x00, bit := 10, msg := some body, running := true } from rfl]
  rw [txRun_emits_byte _ _ rfl (by simp) rfl (by norm_num)]
  rw [show txPhase { st := TxSt.SYNC, count := 2, byte := 0, bit := 0, msg := some body, running := true }
      = txMsgF { st := TxSt.SYNC, count := 0, byte := 0, bit := 0, msg := some body, running := true } from rfl]
  rw [txRun_msgloop body 11 0 0 0 .SYNC h]
  simp [txFrameBytes]

/-- C5: for a message whose `msg_tx_byte` calls return the nonzero bytes of
`body` followed by 0, the TX state machine serializes exactly the bytes
0xAA,0xAA,0xAA,0xAA, 0xFF, 0x00, body, 0xAA,0xAA, each framed as one start
bit (space), eight data bits MSB-first and one stop bit (mark), after the
single mark tick of the idle line. -/
theorem C5_tx_frame_serialization (body : List Nat) (h : ∀ b ∈ body, 0 < b ∧ b < 256) :
    txLevels body = true :: ((txFrameBytes body).map encLevels).flatten :=
  txLevels_spec body h

/-- Witness for C5 at the spec's example body [0x18, 0x7F, 0xAC]. -/
theorem C5_tx_frame_serialization_witness :
    txLevels [0x18, 0x7F, 0xAC] =
      true :: ((txFrameBytes [0x18, 0x7F, 0xAC]).map encLevels).flatten :=
  C5_tx_frame_serialization [0x18, 0x7F, 0xAC] (by decide)

/-! ## RX pipeline lemmas -/

theorem rxScan_cons (s : RxS) (e : Nat × Bool) (es : List (Nat × Bool)) :
    rxScan s (e :: es) = rxScan (rxScanStep s e) es := rfl

theorem scaled_cons (g : Nat) (l : Bool) (L : List (Nat × Bool)) :
    scaled ((g, l) :: L) = (13 * g, l) :: scaled L := rfl

/-- Running the capture ISR plus frame state machine over the scaled edge
list of one well-formed byte chunk, from a byte boundary: every in-byte edge
is appended to the buffer and keeps the FRAME state, and the final falling
edge at the ten-bit boundary commits the buffer, delivers the decoded byte
and re-anchors the clock. -/
theorem rxScan_byteEdges (L : List (Nat × Bool)) :
    ∀ (c : Nat) (prev : Bool) (s : RxS),
    byteEdgesOK c prev L = true →
    (s.st = .FRAME0 ∨ s.st = .FRAME) →
    s.lastByte ≠ 0xAC →
    s.elapsed = 13 * c →
    s.lastLevel = prev →
    rxScan s (scaled L) =
      { st := .FRAME0, preamble := s.preamble, nByte := s.nByte + 1,
        lastByte := rxProcessEdges (s.cur ++ cumsFrom c L),
        cur := [], elapsed := 0, lastLevel := false, level := false,
        out := s.out ++ [Ev.byte (rxProcessEdges (s.cur ++ cumsFrom c L))] } := by
  induction L with
  | nil => intro c prev s hok; simp [byteEdgesOK] at hok
  | cons e rest ih =>
    intro c prev s hok hst hlb hel hll
    match rest, e with
    | [], (g, lv) =>
      simp only [byteEdgesOK, Bool.and_eq_true, decide_eq_true_eq] at hok
      obtain ⟨⟨hlv, hprev⟩, hcg⟩ := hok
      subst hlv hprev
      have h130 : (13 * c + 13 * g) % 256 = 130 := by omega
      have hstep : rxScanStep s (13 * g, false) =
          { st := .FRAME0, preamble := s.preamble, nByte := s.nByte + 1,
            lastByte := rxProcessEdges (s.cur ++ [130]),
            cur := [], elapsed := 0, lastLevel := false, level := false,
            out := s.out ++ [Ev.byte (rxProcessEdges (s.cur ++ [130]))] } := by
        simp only [rxScanStep, hel, hll]
        rw [if_neg (by simp)]
        rcases hst with h | h <;>
          simp [rxEdgeF, h, rxFrameF, h130, rxByteF]
      have hc : cumsFrom c [(g, false)] = [130] := by
        simp only [cumsFrom]
        rw [show (13 * (c + g)) % 256 = 130 from by omega]
      rw [hc, scaled_cons, rxScan_cons, hstep]
      rfl
    | e2 :: rest2, (g, lv) =>
      simp only [byteEdgesOK, Bool.and_eq_true, decide_eq_true_eq] at hok
      obtain ⟨⟨⟨hlv, hg⟩, hcg⟩, hrest⟩ := hok
      have hi : (13 * c + 13 * g) % 256 = 13 * (c + g) := by omega
      have hstep : rxScanStep s (13 * g, lv) =
          { st := .FRAME, preamble := s.preamble, nByte := s.nByte,
            lastByte := s.lastByte,
            cur := s.cur ++ [13 * (c + g)], elapsed := 13 * (c + g), lastLevel := lv,
            level := lv, out := s.out } := by
        simp only [rxScanStep, hel, hll]
        rw [if_neg (by simp [hlv])]
        have ha : 13 * c + 13 * g = 13 * (c + g) := by ring
        have hmod : 13 * (c + g) % 256 = 13 * (c + g) := by omega
        have h123 : ¬(123 < 13 * (c + g)) := by omega
        rcases hst with h | h <;>
          simp [rxEdgeF, h, rxFrameF, hi, ha, hmod, hlb, h123]
      rw [scaled_cons, rxScan_cons, hstep]
      rw [ih (c + g) lv _ hrest (Or.inr rfl) (by simpa using hlb) rfl rfl]
      have hmod : (13 * (c + g)) % 256 = 13 * (c + g) := by omega
      simp [cumsFrom, hmod]

theorem edgesFrom_append (xs : List Bool) : ∀ (ys : List Bool) (prev : Bool) (gap : Nat),
    edgesFrom prev gap (xs ++ ys) =
      edgesFrom prev gap xs ++
        edgesFrom (edgeState prev gap xs).1 (edgeState prev gap xs).2 ys := by
  induction xs with
  | nil => intro ys prev gap; rfl
  | cons l ls ih =>
    intro ys prev gap
    by_cases h : l = prev
    · simp [edgesFrom, edgeState, h, ih]
    · simp [edgesFrom, edgeState, h, ih]

theorem encLevels_flatten_shift (bs : List Nat) (h : bs ≠ []) :
    (bs.map encLevels).flatten ++ [false] = false :: (bs.map chunkLevels).flatten := by
  induction bs with
  | nil => exact absurd rfl h
  | cons b rest ih =>
    cases rest with
    | nil => simp [encLevels, chunkLevels]
    | cons b2 rest2 =>
      have := ih (by simp)
      simp only [List.map_cons, List.flatten_cons, List.append_assoc] at this ⊢
      rw [this]
      simp [encLevels, chunkLevels]

/-- The TX level trace regrouped into the concrete prefix (idle mark,
preamble, sync word, first start bit), one chunk per body byte, and the
training tail. -/
theorem regroup (body : List Nat) (h : body ≠ []) :
    true :: ((txFrameBytes body).map encLevels).flatten =
      preLevels ++ ((body.map chunkLevels).flatten ++ tailLevels) := by
  have h1 := encLevels_flatten_shift body h
  simp only [txFrameBytes, List.map_append, List.flatten_append, List.append_assoc]
  have h2 : ((body.map encLevels).flatten ++ ([0xAA, 0xAA].map encLevels).flatten) =
      (body.map encLevels).flatten ++ [false] ++ tailLevels := by
    simp [encLevels, tailLevels, chunkLevels]
  rw [h2, h1]
  simp [preLevels, encLevels, tailLevels]

set_option maxRecDepth 40000 in
/-- Decided facts about the edge list of one byte chunk: the residual run
state after a chunk is always (low, one bit period); the chunk's edge list
is well formed; and the intervals the capture ISR records for it decode
back to the byte. -/
theorem chunk_facts : ∀ b, b < 256 →
    edgeState false 1 (chunkLevels b) = (false, 1) ∧
    byteEdgesOK 0 false (edgesFrom false 1 (chunkLevels b)) = true ∧
    rxProcessEdges (cumsFrom 0 (edgesFrom false 1 (chunkLevels b))) = b := by
  decide

theorem edgesFrom_chunks (bs : List Nat) : ∀ (suffix : List Bool), (∀ b ∈ bs, b < 256) →
    edgesFrom false 1 ((bs.map chunkLevels).flatten ++ suffix) =
      (bs.map (fun b => edgesFrom false 1 (chunkLevels b))).flatten ++
        edgesFrom false 1 suffix := by
  induction bs with
  | nil => intro suffix _; simp
  | cons b rest ih =>
    intro suffix hall
    have hb := (chunk_facts b (hall b (by simp))).1
    simp only [List.map_cons, List.flatten_cons, List.append_assoc]
    rw [edgesFrom_append, hb]
    rw [ih suffix (fun x hx => hall x (by simp [hx]))]

theorem rxScanStep_done (s : RxS) (e : Nat × Bool) (h : s.st = .DONE) :
    (rxScanStep s e).st = .DONE ∧ (rxScanStep s e).out = s.out := by
  obtain ⟨st, p, nB, lb, cur, el, ll, lv, out⟩ := s
  simp only at h
  subst h
  simp only [rxScanStep, rxEdgeF]
  split_ifs <;> simp

theorem rxScan_done (es : List (Nat × Bool)) : ∀ (s : RxS), s.st = .DONE →
    (rxScan s es).st = .DONE ∧ (rxScan s es).out = s.out := by
  induction es with
  | nil => intro s h; exact ⟨h, rfl⟩
  | cons e rest ih =>
    intro s h
    obtain ⟨h1, h2⟩ := rxScanStep_done s e h
    obtain ⟨g1, g2⟩ := ih _ h1
    rw [rxScan_cons]
    exact ⟨g1, by rw [g2, h2]⟩

set_option maxRecDepth 40000 in
/-- Concrete evaluation of the frame-detect phase: scanning the edges of the
prefix levels from reset acquires the sync word, gains byte synch at the
first start-bit edge, emits MSG_START and ends at a clean byte boundary. -/
theorem rxScan_pre :
    rxScan rxEnable (scaled (edgesFrom true 0 preLevels)) =
      mkFrameState 0 0 0 [Ev.msgStart] ∧
    edgeState true 0 preLevels = (false, 1) := by
  decide


theorem rxScan_append (s : RxS) (a b : List (Nat × Bool)) :
    rxScan s (a ++ b) = rxScan (rxScan s a) b :=
  List.foldl_append _ _ _ _

theorem scaled_append (a b : List (Nat × Bool)) :
    scaled (a ++ b) = scaled a ++ scaled b := by
  simp [scaled]

/-- One body byte, from byte boundary to byte boundary: the receiver
delivers exactly the byte upstream and returns to the canonical boundary
state with `lastByte` updated. -/
theorem rxScan_byteChunk (b : Nat) (hb : b < 256) (lb p nB : Nat) (out : List Ev)
    (hlb : lb ≠ 172) :
    rxScan (mkFrameState lb p nB out) (scaled (edgesFrom false 1 (chunkLevels b))) =
      mkFrameState b p (nB + 1) (out ++ [Ev.byte b]) := by
  have hfacts := chunk_facts b hb
  rw [rxScan_byteEdges _ 0 false _ hfacts.2.1 (Or.inl rfl) hlb rfl rfl]
  simp [mkFrameState, hfacts.2.2]

/-- The body bytes followed by the 0xAC sentinel, processed chunk by chunk. -/
theorem rxScan_chunks (mid : List Nat) : ∀ (lb p nB : Nat) (out : List Ev),
    (∀ b ∈ mid, b < 256 ∧ b ≠ 172) → lb ≠ 172 →
    rxScan (mkFrameState lb p nB out)
      (scaled (((mid ++ [172]).map (fun b => edgesFrom false 1 (chunkLevels b))).flatten)) =
      mkFrameState 172 p (nB + mid.length + 1) (out ++ (mid ++ [172]).map Ev.byte) := by
  induction mid with
  | nil =>
    intro lb p nB out _ hlb
    simp only [List.nil_append, List.map_cons, List.map_nil, List.flatten_cons,
      List.flatten_nil, List.append_nil]
    rw [rxScan_byteChunk 172 (by norm_num) lb p nB out hlb]
    simp
  | cons b rest ih =>
    intro lb p nB out hall hlb
    obtain ⟨hb256, hbne⟩ := hall b (by simp)
    simp only [List.cons_append, List.map_cons, List.flatten_cons]
    rw [scaled_append, rxScan_append]
    rw [rxScan_byteChunk b hb256 lb p nB out hlb]
    rw [ih b p (nB + 1) (out ++ [Ev.byte b]) (fun x hx => hall x (by simp [hx])) hbne]
    simp only [mkFrameState, List.append_assoc, List.singleton_append, List.map_cons,
      List.cons_append, List.length_cons, RxS.mk.injEq, and_true, true_and]
    exact ⟨by omega, by simp⟩

/-- The training tail after the 0xAC sentinel: its first in-byte edge makes
`rx_frame` see `lastByte == 0xAC` and end the frame; everything after is
ignored in the DONE state. -/
theorem rxScan_tail (p nB : Nat) (out : List Ev) :
    (rxScan (mkFrameState 172 p nB out) (scaled (edgesFrom false 1 tailLevels))).st = .DONE ∧
    (rxScan (mkFrameState 172 p nB out) (scaled (edgesFrom false 1 tailLevels))).out = out := by
  have he : edgesFrom false 1 tailLevels = (1, true) ::
      [(1, false), (1, true), (1, false), (1, true), (1, false), (1, true), (1, false),
       (1, true), (1, false), (1, true), (1, false), (1, true), (1, false), (1, true),
       (1, false), (1, true), (1, false), (1, true)] := by decide
  rw [he, scaled_cons, rxScan_cons]
  have hstep : rxScanStep (mkFrameState 172 p nB out) (13 * 1, true) =
      { st := .DONE, preamble := p, nByte := nB, lastByte := 172, cur := [13],
        elapsed := 0, lastLevel := true, level := true, out := out } := by
    simp [rxScanStep, mkFrameState, rxEdgeF, rxFrameF]
  rw [hstep]
  exact rxScan_done _ _ rfl

/-- The full round trip for a body ending in the 0xAC sentinel. -/
theorem framePipeline_spec (mid : List Nat)
    (h : ∀ b ∈ mid, 0 < b ∧ b < 256 ∧ b ≠ 172) :
    framePipeline (mid ++ [172]) =
      Ev.msgStart :: (mid ++ [172]).map Ev.byte ++ [Ev.rssi, Ev.msgEnd] := by
  have hbody : ∀ b ∈ mid ++ [172], 0 < b ∧ b < 256 := by
    intro b hb
    rcases List.mem_append.1 hb with h1 | h1
    · exact ⟨(h b h1).1, (h b h1).2.1⟩
    · simp only [List.mem_singleton] at h1
      subst h1
      norm_num
  unfold framePipeline framePipelineRaw
  rw [txLevels_spec _ hbody, regroup _ (by simp)]
  have hsplit : edgesFrom true 0
      (preLevels ++ (((mid ++ [172]).map chunkLevels).flatten ++ tailLevels)) =
      edgesFrom true 0 preLevels ++
        edgesFrom false 1 (((mid ++ [172]).map chunkLevels).flatten ++ tailLevels) := by
    rw [edgesFrom_append, rxScan_pre.2]
  rw [hsplit]
  rw [edgesFrom_chunks (mid ++ [172]) tailLevels (fun b hb => (hbody b hb).2)]
  rw [scaled_append, scaled_append, rxScan_append, rxScan_append]
  rw [rxScan_pre.1]
  rw [rxScan_chunks mid 0 0 0 [Ev.msgStart] (fun b hb => ⟨(h b hb).2.1, (h b hb).2.2⟩)
    (by norm_num)]
  obtain ⟨hst, hout⟩ := rxScan_tail 0 (0 + mid.length + 1)
    ([Ev.msgStart] ++ (mid ++ [172]).map Ev.byte)
  unfold frameFinalize
  rw [if_pos hst, hout]
  simp

set_option maxRecDepth 40000 in
/-- C1 counterexample: for the body [0x18], which does not end with the
end-of-frame sentinel 0xAC, the round trip delivers MSG_START, 0x18 and then
the first training byte 0xAA, and never MSG_END: after the transmitter
stops, the line stays at mark, no further edges arrive, and the receiver
stays in the FRAME state, so the claimed output is not produced. -/
theorem C1_roundtrip_cex :
    framePipeline [0x18] = [Ev.msgStart, Ev.byte 0x18, Ev.byte 0xAA] ∧
    framePipeline [0x18] ≠
      Ev.msgStart :: [0x18].map Ev.byte ++ [Ev.rssi, Ev.msgEnd] := by
  decide

/-- C1 (amended): for every nonempty body of nonzero bytes below 256 whose
last byte is the 0xAC sentinel and which contains 0xAC nowhere else,
serializing the body with the TX state machine at 13 ticks per bit and
feeding the edge trace to the RX pipeline delivers upstream exactly
MSG_START, the body bytes in order, the RSSI report, and MSG_END. -/
theorem C1_roundtrip_amended (mid : List Nat)
    (h : ∀ b ∈ mid, 0 < b ∧ b < 256 ∧ b ≠ 172) :
    framePipeline (mid ++ [172]) =
      Ev.msgStart :: (mid ++ [172]).map Ev.byte ++ [Ev.rssi, Ev.msgEnd] :=
  framePipeline_spec mid h

/-- Witness for C1 at the body [0x18, 0x7F, 0xAC]. -/
theorem C1_roundtrip_amended_witness :
    framePipeline ([0x18, 0x7F] ++ [172]) =
      Ev.msgStart :: ([0x18, 0x7F] ++ [172]).map Ev.byte ++ [Ev.rssi, Ev.msgEnd] :=
  C1_roundtrip_amended [0x18, 0x7F] (by decide)


theorem rxScanStep_inv (s : RxS) (e : Nat × Bool)
    (h1 : Ev.rssi ∉ s.out) (h2 : Ev.msgEnd ∉ s.out)
    (h3 : (s.st = .FRAME0 ∨ s.st = .FRAME ∨ s.st = .DONE) → Ev.msgStart ∈ s.out) :
    Ev.rssi ∉ (rxScanStep s e).out ∧ Ev.msgEnd ∉ (rxScanStep s e).out ∧
    (((rxScanStep s e).st = .FRAME0 ∨ (rxScanStep s e).st = .FRAME ∨
        (rxScanStep s e).st = .DONE) → Ev.msgStart ∈ (rxScanStep s e).out) := by
  obtain ⟨st, p, nB, lb, cur, el, ll, lv, out⟩ := s
  simp only at h1 h2 h3
  cases st <;>
    (simp only [rxScanStep, rxEdgeF, rxIdleF, rxLowF, rxHighF, rxSync1F, rxStopBitF,
        rxFrameF, rxByteF, rxPreambleF]
     split_ifs <;> simp_all)


theorem rxScan_inv (es : List (Nat × Bool)) : ∀ (s : RxS),
    Ev.rssi ∉ s.out → Ev.msgEnd ∉ s.out →
    ((s.st = .FRAME0 ∨ s.st = .FRAME ∨ s.st = .DONE) → Ev.msgStart ∈ s.out) →
    Ev.rssi ∉ (rxScan s es).out ∧ Ev.msgEnd ∉ (rxScan s es).out ∧
    (((rxScan s es).st = .FRAME0 ∨ (rxScan s es).st = .FRAME ∨
        (rxScan s es).st = .DONE) → Ev.msgStart ∈ (rxScan s es).out) := by
  induction es with
  | nil => intro s h1 h2 h3; exact ⟨h1, h2, h3⟩
  | cons e rest ih =>
    intro s h1 h2 h3
    obtain ⟨g1, g2, g3⟩ := rxScanStep_inv s e h1 h2 h3
    rw [rxScan_cons]
    exact ih _ g1 g2 g3

/-- C7: on every input trace and every termination path, MSG_END is emitted
at most once, it is immediately preceded by exactly one msg_rx_rssi call,
and that call happens after the frame's MSG_START; when no frame completes,
neither the RSSI report nor MSG_END is emitted. -/
theorem C7_rssi_before_end (es : List (Nat × Bool)) :
    (Ev.rssi ∉ framePipelineRaw es ∧ Ev.msgEnd ∉ framePipelineRaw es) ∨
    (∃ pre, framePipelineRaw es = pre ++ [Ev.rssi, Ev.msgEnd] ∧
      Ev.rssi ∉ pre ∧ Ev.msgEnd ∉ pre ∧ Ev.msgStart ∈ pre) := by
  obtain ⟨g1, g2, g3⟩ := rxScan_inv es rxEnable (by simp [rxEnable]) (by simp [rxEnable])
    (by simp [rxEnable])
  unfold framePipelineRaw frameFinalize
  split_ifs with hdone
  · exact Or.inr ⟨(rxScan rxEnable es).out, rfl, g1, g2, g3 (Or.inr (Or.inr hdone))⟩
  · exact Or.inl ⟨g1, g2⟩


set_option maxHeartbeats 3200000 in
theorem C8_clock_recovery (s : RxS) (u : UState) (code shift i j : Nat) (e f : Nat × Bool)
    (hlvl : e.2 ≠ s.lastLevel) (hulvl : f.2 ≠ u.lastLevel) :
    ((rxEdgeF s i).2 = false ↔ (rxEdgeF s i).1.st = .FRAME) ∧
    ((uartRxEdge code u j).2 = false ↔ (uartRxEdge code u j).1.st = .SYNCH) ∧
    (rxScanStep s e).elapsed =
      (if (rxScanStep s e).st = .FRAME then s.elapsed + e.1 else 0) ∧
    (uartScanStep code shift u f).time0 =
      (if (uartScanStep code shift u f).st = .SYNCH then u.time0
       else (u.time + f.1) % 65536) := by
  refine ⟨by simp [rxEdgeF], by simp [uartRxEdge], ?_, ?_⟩
  · have hbyteF_el : ∀ (v : RxS), (rxByteF v).elapsed = v.elapsed := fun v => rfl
    obtain ⟨st, p, nB, lb, cur, el, ll, lv, out⟩ := s
    simp only at hlvl
    cases st <;>
      (simp only [rxScanStep, rxEdgeF, rxIdleF, rxLowF, rxHighF, rxSync1F, rxStopBitF,
          rxFrameF, rxPreambleF]
       split_ifs <;> first | rfl | simp_all [hbyteF_el])
  · have habort_t0 : ∀ (c : Nat) (v : UState), (uartAbort c v).time0 = v.time0 := fun c v => rfl
    have habort_ne : ∀ (c : Nat) (v : UState), (uartAbort c v).st ≠ .SYNCH := by
      intro c v
      show (if (uartByteF { v with lastByte := c }).level then USt.HIGH else USt.SYNC1) ≠ _
      split_ifs <;> simp
    have hbyte_t0 : ∀ (v : UState), (uartByteF v).time0 = v.time0 := fun v => rfl
    obtain ⟨tm, t0, ov, st, nB, lb, cur, ll, lv, out⟩ := u
    simp only at hulvl
    cases st <;>
      (simp only [uartScanStep, uartRxEdge, uartIdleF, uartLowF, uartHighF, uartSync1F,
          uartStopBitF, uartSynchF]
       split_ifs <;> first | rfl | simp_all [habort_t0, habort_ne, hbyte_t0])

/-- Witness for C8 at concrete states and edges. -/
theorem C8_clock_recovery_witness :
    ((rxEdgeF rxEnable 13).2 = false ↔ (rxEdgeF rxEnable 13).1.st = .FRAME) ∧
    ((uartRxEdge 0 uartEnable 13).2 = false ↔ (uartRxEdge 0 uartEnable 13).1.st = .SYNCH) ∧
    (rxScanStep rxEnable (13, true)).elapsed =
      (if (rxScanStep rxEnable (13, true)).st = .FRAME
       then rxEnable.elapsed + (13, true).1 else 0) ∧
    (uartScanStep 0 1 uartEnable (26, true)).time0 =
      (if (uartScanStep 0 1 uartEnable (26, true)).st = .SYNCH then uartEnable.time0
       else (uartEnable.time + (26, true).1) % 65536) :=
  C8_clock_recovery rxEnable uartEnable 0 1 13 13 (13, true) (26, true) (by decide) (by decide)

set_option maxRecDepth 20000 in
/-- C2: frame.c's `rx_frame` appends in-byte intervals with no bound check:
on `overflowTrace` the current edge buffer grows to 25 entries, one past the
24-entry `Edges[idx]` array (in C the 25th write is out of bounds), while in
the same situation sw_uart.c's `rx_synch` appends at most 24 intervals and
aborts with `rx_abort` instead (buffer reset, one partial byte committed). -/
theorem C2_edge_buffer_overflow :
    (rxScan rxEnable overflowTrace).cur.length = 25 ∧
    (rxScan rxEnable overflowTrace).st = .FRAME ∧
    (uartScan 153 1 uartEnable overflowTraceU).cur.length = 0 ∧
    (uartScan 153 1 uartEnable overflowTraceU).nByte = 1 ∧
    (uartScan 153 1 uartEnable overflowTraceU).st = .HIGH := by
  decide

/-- C3 (amended): in the sw_uart.c variant, the interval handed to the RX
state handlers is exactly the specification's saturate-to-255 formula with
the timer-overflow override, and is always at most 255. -/
theorem C3_uart_interval_saturated (t t0 ovf sh : Nat) :
    uartInterval t t0 ovf sh = specSaturatedInterval t t0 ovf sh ∧
    uartInterval t t0 ovf sh ≤ 255 := by
  unfold uartInterval specSaturatedInterval
  constructor
  · split_ifs with h1 h2 <;> first | rfl | omega
  · split_ifs <;> simp

/-- C3 counterexample: frame.c's GDO2 handler truncates the shifted timer
difference to a uint8_t instead of saturating it.  With `time - time0 =
1024` pre-shift ticks and clock shift 2 the handler computes 0 where the
claimed saturation gives 255; behaviourally, in state RX_HIGH a falling
edge after 256 post-shift ticks is classified as a short LOW (interval 0)
rather than a SYNC0 candidate. -/
theorem C3_frame_truncation_cex :
    frameGdo2Interval 1024 0 2 = 0 ∧
    specSaturatedInterval 1024 0 0 2 = 255 ∧
    frameGdo2Interval 1024 0 2 ≠ specSaturatedInterval 1024 0 0 2 ∧
    (rxScanStep { rxEnable with st := .HIGH, lastLevel := true } (256, false)).st = .LOW := by
  decide

/-- C4: `rx_abort code` stores the error code in `lastByte`, but committing
the buffer raises the decode interrupt, which overwrites `lastByte` with the
byte decoded from the partial edge buffer and delivers that byte upstream —
for every abort-code value.  On the concrete lost-sync trace the byte
delivered is 0x01 (the decode of the partial buffer [13, 26, 156]), not the
abort code, after which RX resumes sync-word search in RX_HIGH. -/
theorem C4_abort_code_not_delivered (code : Nat) (s : UState) :
    (uartAbort code s).lastByte = rxProcessEdgesU s.cur ∧
    (uartAbort code s).out = s.out ++ [rxProcessEdgesU s.cur] ∧
    ((uartAbort code s).st = .HIGH ∨ (uartAbort code s).st = .SYNC1) ∧
    ((uartScan 153 1 uartEnable lostSyncTrace).out = [1] ∧
     (uartScan 153 1 uartEnable lostSyncTrace).st = .HIGH ∧
     (uartScan 153 1 uartEnable lostSyncTrace).lastByte = 1) := by
  refine ⟨rfl, rfl, ?_, by decide⟩
  simp only [uartAbort, uartByteF]
  split_ifs <;> simp


end Evofw3
